import Mathlib

/-!
Shallow embedding of the RESCALk model-order-selection orchestrator
(source file: TELF/factorization/RESCALk.py).

Matrices are kept abstract (a type parameter over which the external numerical
collaborators operate).  The numpy and cupy global random generators are
modelled as explicit state values of type Nat that are threaded through every
sampling call; np.random.seed(p) replaces the numpy state by a fixed function
of p (the exact Mersenne-Twister state is irrelevant, only that it is a
function of the seed alone, so we use p itself).  The cupy generator is a
separate state: the source never reseeds it.

External numerical collaborators (uniform_product, nnsvd, R_update, the
rescal kernel, relative_error_rescal, custom_k_means, silhouettes, np.std)
are record fields: the theorems quantify over every conforming implementation.
-/

namespace TELF

/-- External collaborators used by the orchestrator.  Sampling primitives
take and return the state of the random generator they consume.  The
stack fields model the np.array(...).transpose((1, 2, 0)) / np.array(...)
assembly of the per-trial lists into tensors. -/
structure Externals (α : Type) where
  uniform_product : α → ℚ → Nat → α × Nat
  hstack : List α → α
  transposeM : α → α
  nnsvd : α → Nat → α × α
  np_rand : Nat → Nat → Nat → α × Nat
  cp_rand : Nat → Nat → Nat → α × Nat
  R_update : List α → α → List α → List α
  rescal : List α → α → List α → α × List α
  relative_error_rescal : List α → α → List α → ℚ
  nrows : α → Nat
  custom_k_means : α → α × α
  silhouettes : α → List (List ℚ)
  stackA : List α → α
  stackR : List (List α) → α
  np_std : List ℚ → ℚ

/-- The two values accepted for the init option (source line 259). -/
inductive InitMode
  | nnsvd
  | random
deriving DecidableEq, Repr

/-- Result of one factorization trial: entity factor A, relation cores R,
relative reconstruction error (source: return of the wrapper, line 141). -/
structure TrialOut (α : Type) where
  A : α
  R : List α
  error : ℚ
deriving DecidableEq, Repr

instance [Inhabited α] : Inhabited (TrialOut α) :=
  ⟨⟨default, [], 0⟩⟩

/-- Full result of one wrapper call: the trial output together with the
final states of the numpy and cupy global generators. -/
structure WrapperResult (α : Type) where
  out : TrialOut α
  g_np : Nat
  g_cp : Nat
deriving DecidableEq, Repr

/-- State after np.random.seed(p): a fixed function of the seed alone
(source line 83).  The concrete post-seed state is irrelevant to every
claim, so the identity is used. -/
def npRandomSeed (p : Nat) : Nat := p

/-- Threads the random state through a list comprehension that consumes
randomness once per element (source line 86). -/
def mapRng (f : α → Nat → α × Nat) : List α → Nat → List α × Nat
  | [], g => ([], g)
  | x :: xs, g =>
    let p := f x g
    let q := mapRng f xs p.2
    (p.1 :: q.1, q.2)

/-- The list comprehension drawing n random k-by-k matrices in order
(source lines 115 and 133). -/
def randMats (rand : Nat → Nat → Nat → α × Nat) (k : Nat) : Nat → Nat → List α × Nat
  | 0, g => ([], g)
  | n + 1, g =>
    let p := rand k k g
    let q := randMats rand k n p.2
    (p.1 :: q.1, q.2)

/-- Embedding of the module-level trial function _rescal_wrapper
(source lines 51-141).  The gpuid argument selects the device a GPU trial
runs on (source line 107); it affects where the computation happens, never
its value, so the body does not consume it.  The sparse and dense branches
of the source differ only in which library routine performs the identical
abstract operation, so a single hstack models both.  On the GPU path the
k-by-k seeds for R are drawn from the cupy generator (source line 115),
on the CPU path from the numpy generator (source line 133); the error, when
requested, is computed against the original unperturbed X (source line 138). -/
def rescal_wrapper [Inhabited α] (ext : Externals α) (perturbation : Nat)
    (init : InitMode) (X : List α) (k : Nat) (epsilon : ℚ) (gpuid : Nat)
    (use_gpu : Bool) (calculate_error : Bool) (g0 : Nat) (c0 : Nat) :
    WrapperResult α :=
  -- np.random.seed(perturbation): the previous numpy state g0 is discarded
  let g1 := npRandomSeed perturbation
  -- Y = [uniform_product(X_, epsilon) for X_ in X]
  let yr := mapRng (fun m s => ext.uniform_product m epsilon s) X g1
  let Y := yr.1
  let g2 := yr.2
  let ar : α × Nat :=
    match init with
    | InitMode.nnsvd =>
      let t1 := ext.hstack Y
      let t2 := ext.hstack (Y.map ext.transposeM)
      ((ext.nnsvd (ext.hstack [t1, t2]) k).1, g2)
    | InitMode.random => ext.np_rand (ext.nrows Y.headI) k g2
  let A0 := ar.1
  let g3 := ar.2
  if use_gpu then
    let sc := randMats ext.cp_rand k X.length c0
    let R0 := ext.R_update Y A0 sc.1
    let pr := ext.rescal Y A0 R0
    let err : ℚ := if calculate_error then ext.relative_error_rescal X pr.1 pr.2 else 0
    ⟨⟨pr.1, pr.2, err⟩, g3, sc.2⟩
  else
    let sn := randMats ext.np_rand k X.length g3
    let R0 := ext.R_update Y A0 sn.1
    let pr := ext.rescal Y A0 R0
    let err : ℚ := if calculate_error then ext.relative_error_rescal X pr.1 pr.2 else 0
    ⟨⟨pr.1, pr.2, err⟩, sn.2, c0⟩

/-- The sequential dispatch path of the per-rank scheduling loop
(source lines 481-497): for p in range(n_perturbs), call the wrapper with
seed p (and the default gpuid 0), threading the two global generator
states from trial to trial within the single process.  The counter p
starts at 0; it is generalized here so the loop can be reasoned about by
recursion on the number of remaining trials. -/
def seqTrialsFrom [Inhabited α] (ext : Externals α) (init : InitMode)
    (X : List α) (k : Nat) (epsilon : ℚ) (use_gpu : Bool)
    (calculate_error : Bool) (p : Nat) :
    Nat → Nat → Nat → List (TrialOut α) × Nat × Nat
  | 0, g, c => ([], g, c)
  | n + 1, g, c =>
    let w := rescal_wrapper ext p init X k epsilon 0 use_gpu calculate_error g c
    let rest := seqTrialsFrom ext init X k epsilon use_gpu calculate_error
      (p + 1) n w.g_np w.g_cp
    (w.out :: rest.1, rest.2)

/-- The n_jobs == 1 branch of fit (source lines 481-501): the list of
per-trial results in seed order, plus the final generator states. -/
def seqRank [Inhabited α] (ext : Externals α) (init : InitMode) (X : List α)
    (k : Nat) (epsilon : ℚ) (use_gpu : Bool) (calculate_error : Bool)
    (n_perturbs : Nat) (g c : Nat) : List (TrialOut α) × Nat × Nat :=
  seqTrialsFrom ext init X k epsilon use_gpu calculate_error 0 n_perturbs g c

/-- One trial as dispatched on the parallel path (source lines 503-517):
seed pert, gpuid pert mod n_jobs, executed inside a worker process whose
generator states are given by the assignment states (each worker process
carries its own numpy and cupy global generators). -/
def parTrial [Inhabited α] (ext : Externals α) (init : InitMode) (X : List α)
    (k : Nat) (epsilon : ℚ) (use_gpu : Bool) (calculate_error : Bool)
    (n_jobs : Nat) (states : Nat → Nat × Nat) (pert : Nat) : TrialOut α :=
  (rescal_wrapper ext pert init X k epsilon (pert % n_jobs) use_gpu
    calculate_error (states pert).1 (states pert).2).out

/-- Reassembly of worker results in submission order, as joblib.Parallel
does: the output at position p is the result whose task index is p,
looked up among the completed (index, result) pairs, whatever order the
workers completed in. -/
def collectInOrder [Inhabited β] (n : Nat) (completed : List (Nat × β)) :
    List β :=
  (List.range n).map
    (fun p => ((completed.find? (fun q => q.1 == p)).map Prod.snd).getD default)

/-- The n_jobs > 1 branch of fit (source lines 502-527): all n_perturbs
trials are submitted with seeds range(n_perturbs); workers complete them
in some order (the list order of task indices) and joblib returns the
results in submission order. -/
def parRank [Inhabited α] (ext : Externals α) (init : InitMode) (X : List α)
    (k : Nat) (epsilon : ℚ) (use_gpu : Bool) (calculate_error : Bool)
    (n_jobs : Nat) (n_perturbs : Nat) (states : Nat → Nat × Nat)
    (order : List Nat) : List (TrialOut α) :=
  collectInOrder n_perturbs
    (order.map (fun pert =>
      (pert, parTrial ext init X k epsilon use_gpu calculate_error n_jobs states pert)))

/-- Seeds passed to the wrapper by the sequential loop
(source line 483: for p in range(self.n_perturbs)). -/
def seqSeeds (n_perturbs : Nat) : List Nat := List.range n_perturbs

/-- Seeds submitted to the worker pool by the parallel generator
(source line 517: for pert in range(self.n_perturbs)). -/
def parSeeds (n_perturbs : Nat) : List Nat := List.range n_perturbs

/-- np.mean of a one-dimensional array, in exact rational arithmetic. -/
def npMean (l : List ℚ) : ℚ := l.sum / l.length

/-- np.min of a one-dimensional array (0 on the empty array, which numpy
rejects at runtime; every use is guarded by nonemptiness). -/
def npMin : List ℚ → ℚ
  | [] => 0
  | x :: xs => xs.foldl min x

/-- np.min(np.mean(sils_all, 1)): the minimum of the per-cluster mean
silhouettes (source line 535). -/
def sils_min_of (sils_all : List (List ℚ)) : ℚ := npMin (sils_all.map npMean)

/-- np.mean(np.mean(sils_all, 1)): the mean of the per-cluster mean
silhouettes (source line 536). -/
def sils_mean_of (sils_all : List (List ℚ)) : ℚ := npMean (sils_all.map npMean)

/-- Per-rank row of statistics accumulated by fit (source lines 529-565):
per-trial errors array, silhouette statistics, and the regression error
appended to err_reg. -/
structure RankRow where
  errors : List ℚ
  s_min : ℚ
  s_mean : ℚ
  s_std : ℚ
  err_mean : ℚ
  err_std : ℚ
  err_reg : ℚ
deriving Repr

/-- Body of the per-rank loop of fit for one rank k on the sequential
dispatch path (source lines 481-565): run the trials, stack, cluster,
compute silhouette statistics, regress R against the original X with
fresh random seeds (cupy generator when use_gpu, numpy otherwise, source
lines 550 and 557), and compute the regression error only when
calculate_error is set (source lines 561-565). -/
def rankStep [Inhabited α] (ext : Externals α) (init : InitMode)
    (use_gpu calculate_error : Bool) (n_perturbs : Nat) (epsilon : ℚ)
    (X : List α) (k : Nat) (g c : Nat) : RankRow × Nat × Nat :=
  let tr := seqRank ext init X k epsilon use_gpu calculate_error n_perturbs g c
  let trials := tr.1
  let g1 := tr.2.1
  let c1 := tr.2.2
  let errors := trials.map (fun t => t.error)
  let A_all := ext.stackA (trials.map (fun t => t.A))
  let km := ext.custom_k_means A_all
  let sils_all := ext.silhouettes km.2
  let rowMeans := sils_all.map npMean
  let sd := if use_gpu then randMats ext.cp_rand k X.length c1
            else randMats ext.np_rand k X.length g1
  let R := ext.R_update X km.1 sd.1
  let error : ℚ := if calculate_error then ext.relative_error_rescal X km.1 R else 0
  (⟨errors, npMin rowMeans, npMean rowMeans, ext.np_std rowMeans,
    npMean errors, ext.np_std errors, error⟩,
   if use_gpu then (g1, sd.2) else (sd.2, c1))

/-- The per-rank loop of fit over the rank list (source line 478),
threading the generator states from rank to rank. -/
def fitLoop [Inhabited α] (ext : Externals α) (init : InitMode)
    (use_gpu calculate_error : Bool) (n_perturbs : Nat) (epsilon : ℚ)
    (X : List α) : List Nat → Nat → Nat → List RankRow
  | [], _, _ => []
  | k :: ks, g, c =>
    let r := rankStep ext init use_gpu calculate_error n_perturbs epsilon X k g c
    r.1 :: fitLoop ext init use_gpu calculate_error n_perturbs epsilon X ks r.2.1 r.2.2

/-- Entry of fit: the empty-rank-list check (source lines 396-397) comes
before any trial is dispatched; on the error branch no rank row and no
trial exists. -/
def fit [Inhabited α] (ext : Externals α) (init : InitMode)
    (use_gpu calculate_error : Bool) (n_perturbs : Nat) (epsilon : ℚ)
    (X : List α) (Ks : List Nat) (g c : Nat) : Except String (List RankRow) :=
  if Ks.length = 0 then Except.error "Ks range is 0!"
  else Except.ok (fitLoop ext init use_gpu calculate_error n_perturbs epsilon X Ks g c)

/-- Resolution of a negative worker request against the resource count
(source lines 304-312): n_jobs < 0 means all-but-(-n_jobs - 1) of the
available resources. -/
def resolved_request (n_jobs : Int) (use_gpu : Bool) (n_gpus n_cpus : Nat) : Int :=
  if n_jobs < 0 then (if use_gpu then (n_gpus : Int) else (n_cpus : Int)) + (n_jobs + 1)
  else n_jobs

/-- Outcome of the worker-count validation in the constructor: the
effective n_jobs, the effective use_gpu flag, and which warnings were
emitted. -/
structure JobsResult where
  n_jobs : Int
  use_gpu : Bool
  warn_no_gpu : Bool
  warn_too_many : Bool
deriving DecidableEq, Repr

/-- Embedding of the resource-validation block of the constructor
(source lines 293-336): downgrade to CPU with a warning when GPUs are
requested but none exist; resolve negative requests; reject requests that
resolve to zero or fewer; clamp to the available GPU count (with a
warning) on the GPU path, and to the available CPU count (with a warning)
and then to n_perturbs on the CPU path. -/
def resolve_n_jobs (n_jobs : Int) (use_gpu : Bool) (n_gpus n_cpus : Nat)
    (n_perturbs : Int) : Except String JobsResult :=
  let gp : Bool × Bool :=
    if use_gpu ∧ n_gpus = 0 then (false, true) else (use_gpu, false)
  let ug := gp.1
  let j1 := resolved_request n_jobs ug n_gpus n_cpus
  if j1 ≤ 0 then Except.error "Number of GPUs or CPUs must be 1 or more."
  else if ug then
    if j1 > (n_gpus : Int) then Except.ok ⟨(n_gpus : Int), ug, gp.2, true⟩
    else Except.ok ⟨j1, ug, gp.2, false⟩
  else
    let p2 : Int × Bool :=
      if j1 > (n_cpus : Int) then ((n_cpus : Int), true) else (j1, false)
    let j3 : Int := if p2.1 > n_perturbs then n_perturbs else p2.1
    Except.ok ⟨j3, ug, gp.2, p2.2⟩

/-- Embedding of the construction-time validation sequence: the init
option check (source lines 259-261), the multi-node transport check
(source lines 263-264, a sys.exit modelled as an error), the worker-count
resolution (source lines 293-336) and the kernel-method check (source
lines 347-350).  Each failure is raised before the object exists, hence
before any trial can run. -/
def init_validate (init : String) (n_nodes : Nat) (mpi_available : Bool)
    (n_jobs : Int) (use_gpu : Bool) (n_gpus n_cpus : Nat) (n_perturbs : Int)
    (rescal_method : String) : Except String JobsResult :=
  if ¬(init = "nnsvd" ∨ init = "random") then
    Except.error "Invalid init. Choose from: nnsvd, random"
  else if n_nodes > 1 ∧ ¬mpi_available then
    Except.error "Attempted to use n_nodes>1 but MPI is not available!"
  else
    match resolve_n_jobs n_jobs use_gpu n_gpus n_cpus n_perturbs with
    | Except.error e => Except.error e
    | Except.ok jr =>
      if ¬(rescal_method = "rescal_fro_mu" ∨ rescal_method = "func") then
        Except.error "Invalid RESCAL method is selected."
      else Except.ok jr

/-- Body of the round-robin distribution loop of _chunk_Ks
(source lines 732-734): chunks[idx % n_chunks].append(ii), as a
structural update of the i-th chunk. -/
def appendAt : List (List α) → Nat → α → List (List α)
  | [], _, _ => []
  | c :: cs, 0, x => (c ++ [x]) :: cs
  | c :: cs, i + 1, x => c :: appendAt cs i x

/-- The enumeration loop of _chunk_Ks with its running index
(source lines 732-734). -/
def chunkLoop (nc : Nat) : Nat → List α → List (List α) → List (List α)
  | _, [], chunks => chunks
  | idx, x :: xs, chunks => chunkLoop nc (idx + 1) xs (appendAt chunks (idx % nc) x)

/-- Embedding of RESCALk._chunk_Ks (source lines 723-736): correct
n_chunks down to len(Ks) when the list is shorter, then distribute the
ranks round-robin over n_chunks initially empty chunks. -/
def chunk_Ks (Ks : List α) (n_chunks : Nat) : List (List α) :=
  let nc := if Ks.length < n_chunks then Ks.length else n_chunks
  chunkLoop nc 0 Ks (List.replicate nc [])

/-- The per-node statistics rows shared at the end of a multi-node run
(source lines 612-622). -/
structure ShareData where
  Ks : List Nat
  sils_min : List ℚ
  sils_mean : List ℚ
  sils_std : List ℚ
  err_reg : List ℚ
  err_mean : List ℚ
  err_std : List ℚ
deriving DecidableEq, Repr

/-- Concatenation of the gathered per-node rows in MPI-rank order
(source lines 628-649): comm.gather returns the nodes' payloads ordered
by node rank, and the loop concatenates field by field. -/
def gather_concat (datas : List ShareData) : ShareData :=
  { Ks := (datas.map (fun d => d.Ks)).flatten
    sils_min := (datas.map (fun d => d.sils_min)).flatten
    sils_mean := (datas.map (fun d => d.sils_mean)).flatten
    sils_std := (datas.map (fun d => d.sils_std)).flatten
    err_reg := (datas.map (fun d => d.err_reg)).flatten
    err_mean := (datas.map (fun d => d.err_mean)).flatten
    err_std := (datas.map (fun d => d.err_std)).flatten }

/-- np.argsort on the merged rank keys (source line 652): a list of the
indices of all_Ks ordered so that the keys they select are ascending. -/
def argsort (l : List Nat) : List Nat :=
  List.insertionSort (fun i j => l.getD i 0 ≤ l.getD j 0) (List.range l.length)

/-- Reindexing of one statistics array by the sort indices
(source lines 653-659: arr[Ks_sort_indices]). -/
def applyIdxQ (idx : List Nat) (l : List ℚ) : List ℚ :=
  idx.map (fun i => l.getD i 0)

/-- Reindexing of the rank array by the sort indices (source line 653). -/
def applyIdxN (idx : List Nat) (l : List Nat) : List Nat :=
  idx.map (fun i => l.getD i 0)

/-- The merge performed on node 0 (source lines 631-659): concatenate the
gathered rows, argsort the merged rank keys, and reindex every statistics
array by the same sort indices. -/
def merge_finalize (datas : List ShareData) : ShareData :=
  let allD := gather_concat datas
  let idx := argsort allD.Ks
  { Ks := applyIdxN idx allD.Ks
    sils_min := applyIdxQ idx allD.sils_min
    sils_mean := applyIdxQ idx allD.sils_mean
    sils_std := applyIdxQ idx allD.sils_std
    err_reg := applyIdxQ idx allD.err_reg
    err_mean := applyIdxQ idx allD.err_mean
    err_std := applyIdxQ idx allD.err_std }

/-- Outcome of the multi-node FINALIZE phase on one node: the sequence of
collective MPI operations the node takes part in, and the merged result
(present on node 0 only). -/
structure FinalizeResult where
  mpi_ops : List String
  result : Option ShareData
deriving Repr

/-- Embedding of the multi-node FINALIZE phase (source lines 609-665):
every node passes the barrier then takes part in the gather to root 0;
node 0 merges and re-sorts; every other node exits via sys.exit(0)
without a result. -/
def node_finalize (rank : Nat) (datas : List ShareData) : FinalizeResult :=
  { mpi_ops := ["Barrier", "gather"]
    result := if rank = 0 then some (merge_finalize datas) else none }

/-
Helper lemmas about the trial wrapper.
-/

/-- On the CPU path the trial output is a function of the seed and the
data alone: the incoming numpy state is overwritten by np.random.seed,
the cupy state is not consumed, and the gpuid selects a device without
entering the computed value. -/
theorem rescal_wrapper_cpu_out_indep [Inhabited α] (ext : Externals α)
    (p : Nat) (init : InitMode) (X : List α) (k : Nat) (epsilon : ℚ)
    (gpuid gpuid2 : Nat) (calculate_error : Bool) (g c g2 c2 : Nat) :
    (rescal_wrapper ext p init X k epsilon gpuid false calculate_error g c).out
      = (rescal_wrapper ext p init X k epsilon gpuid2 false calculate_error g2 c2).out := rfl

/-- The gpuid argument never enters the computed result (it selects the
device the source runs the kernel on, source line 107). -/
theorem rescal_wrapper_gpuid_irrel [Inhabited α] (ext : Externals α)
    (p : Nat) (init : InitMode) (X : List α) (k : Nat) (epsilon : ℚ)
    (gpuid gpuid2 : Nat) (use_gpu calculate_error : Bool) (g c : Nat) :
    rescal_wrapper ext p init X k epsilon gpuid use_gpu calculate_error g c
      = rescal_wrapper ext p init X k epsilon gpuid2 use_gpu calculate_error g c := rfl

/-- With calculate_error unset the wrapper returns the error field 0
(source lines 137-141). -/
theorem rescal_wrapper_error_zero [Inhabited α] (ext : Externals α)
    (p : Nat) (init : InitMode) (X : List α) (k : Nat) (epsilon : ℚ)
    (gpuid : Nat) (use_gpu : Bool) (g c : Nat) :
    (rescal_wrapper ext p init X k epsilon gpuid use_gpu false g c).out.error = 0 := by
  cases use_gpu <;> rfl

/-- Length of the sequential trial list. -/
theorem seqTrialsFrom_length [Inhabited α] (ext : Externals α) (init : InitMode)
    (X : List α) (k : Nat) (epsilon : ℚ) (use_gpu calculate_error : Bool) :
    ∀ (n p g c : Nat),
      (seqTrialsFrom ext init X k epsilon use_gpu calculate_error p n g c).1.length = n := by
  intro n
  induction n with
  | zero => intro p g c; rfl
  | succ n ih =>
    intro p g c
    simp only [seqTrialsFrom, List.length_cons]
    rw [ih]

/-- The trial stored at position t of the sequential list is the wrapper
applied to seed p + t (at the generator states threaded to that trial). -/
theorem seqTrialsFrom_getElem? [Inhabited α] (ext : Externals α) (init : InitMode)
    (X : List α) (k : Nat) (epsilon : ℚ) (use_gpu calculate_error : Bool) :
    ∀ (n p g c t : Nat), t < n → ∃ g2 c2,
      (seqTrialsFrom ext init X k epsilon use_gpu calculate_error p n g c).1[t]?
        = some (rescal_wrapper ext (p + t) init X k epsilon 0 use_gpu calculate_error g2 c2).out := by
  intro n
  induction n with
  | zero => intro p g c t ht; omega
  | succ n ih =>
    intro p g c t ht
    match t with
    | 0 =>
      refine ⟨g, c, ?_⟩
      simp [seqTrialsFrom]
    | t + 1 =>
      obtain ⟨g2, c2, h2⟩ := ih (p + 1)
        (rescal_wrapper ext p init X k epsilon 0 use_gpu calculate_error g c).g_np
        (rescal_wrapper ext p init X k epsilon 0 use_gpu calculate_error g c).g_cp
        t (by omega)
      refine ⟨g2, c2, ?_⟩
      simp only [seqTrialsFrom, List.getElem?_cons_succ]
      rw [h2]
      have hpt : p + 1 + t = p + (t + 1) := by omega
      rw [hpt]

/-- On the CPU path the sequential trial list is the pointwise image of
the seed range: trial t carries seed p + t, and the threaded generator
states do not enter any output. -/
theorem seqTrialsFrom_cpu_eq_map [Inhabited α] (ext : Externals α) (init : InitMode)
    (X : List α) (k : Nat) (epsilon : ℚ) (calculate_error : Bool) :
    ∀ (n p g c : Nat),
      (seqTrialsFrom ext init X k epsilon false calculate_error p n g c).1
        = (List.range n).map
            (fun t => (rescal_wrapper ext (p + t) init X k epsilon 0 false calculate_error 0 0).out) := by
  intro n
  induction n with
  | zero => intro p g c; rfl
  | succ n ih =>
    intro p g c
    rw [List.range_succ_eq_map]
    simp only [List.map_cons, List.map_map]
    simp only [seqTrialsFrom]
    refine congrArg₂ (· :: ·) ?_ ?_
    · rw [rescal_wrapper_cpu_out_indep ext p init X k epsilon 0 0 calculate_error g c 0 0]
      rw [Nat.add_zero]
    · rw [ih (p + 1)]
      apply List.map_congr_left
      intro t _
      simp only [Function.comp_apply, Nat.succ_eq_add_one]
      have hpt : p + 1 + t = p + (t + 1) := by omega
      rw [hpt]

/-- Looking a task index up among completed (index, result) pairs returns
that task's result whenever the index was completed, independent of
completion order: the result is a function of the key. -/
theorem find?_map_key (f : Nat → β) :
    ∀ (order : List Nat) (p : Nat), p ∈ order →
      (order.map (fun x => (x, f x))).find? (fun q => q.1 == p) = some (p, f p) := by
  intro order
  induction order with
  | nil => intro p hp; cases hp
  | cons a l ih =>
    intro p hp
    by_cases hap : a = p
    · subst hap
      simp [List.find?_cons]
    · have hbeq : (a == p) = false := by simp [hap]
      have hmem : p ∈ l := by
        cases hp with
        | head => exact absurd rfl hap
        | tail _ h => exact h
      simp only [List.map_cons, List.find?_cons, hbeq]
      exact ih p hmem

/-- Entry p of the reassembled output, for p below the task count. -/
theorem collectInOrder_getElem? [Inhabited β] (n : Nat)
    (completed : List (Nat × β)) (p : Nat) (hp : p < n) :
    (collectInOrder n completed)[p]?
      = some (((completed.find? (fun q => q.1 == p)).map Prod.snd).getD default) := by
  simp [collectInOrder, List.getElem?_map, List.getElem?_range, hp]

/-- joblib reassembly: when every task index below n was completed, the
collected output is the task function mapped over the range, whatever
order the workers finished in. -/
theorem collectInOrder_eq_map [Inhabited β] (f : Nat → β) (n : Nat)
    (order : List Nat) (h : ∀ p, p < n → p ∈ order) :
    collectInOrder n (order.map (fun x => (x, f x))) = (List.range n).map f := by
  unfold collectInOrder
  apply List.map_congr_left
  intro p hp
  rw [find?_map_key f order p (h p (List.mem_range.mp hp))]
  rfl

/-- The parallel output at index p is the trial with seed p, for any
completion order covering the task range. -/
theorem parRank_getElem? [Inhabited α] (ext : Externals α) (init : InitMode)
    (X : List α) (k : Nat) (epsilon : ℚ) (use_gpu calculate_error : Bool)
    (n_jobs n_perturbs : Nat) (states : Nat → Nat × Nat) (order : List Nat)
    (horder : ∀ p, p < n_perturbs → p ∈ order) (p : Nat) (hp : p < n_perturbs) :
    (parRank ext init X k epsilon use_gpu calculate_error n_jobs n_perturbs states order)[p]?
      = some (parTrial ext init X k epsilon use_gpu calculate_error n_jobs states p) := by
  unfold parRank
  rw [collectInOrder_eq_map _ n_perturbs order horder]
  simp [List.getElem?_map, List.getElem?_range, hp]

/-- Concrete externals over Nat matrices used for counterexamples: the
random draws return the current generator state, R_update returns the
seeds it is given and the kernel returns its initial factors, so the trial
output exposes the generator state consumed by the relation-core seed
draws, exactly the dependence a conforming iterative kernel has on its
initial factors. -/
def extCex : Externals Nat :=
  { uniform_product := fun m _ s => (m, s)
    hstack := fun l => l.sum
    transposeM := fun m => m
    nnsvd := fun m _ => (m, m)
    np_rand := fun _ _ s => (s, s + 1)
    cp_rand := fun _ _ s => (s, s + 1)
    R_update := fun _ _ seeds => seeds
    rescal := fun _ A R => (A, R)
    relative_error_rescal := fun _ _ _ => 0
    nrows := fun _ => 1
    custom_k_means := fun a => (a, a)
    silhouettes := fun _ => [[1]]
    stackA := fun l => l.sum
    stackR := fun l => (l.map List.sum).sum
    np_std := fun _ => 0 }

/-- C4, counterexample: with use_gpu set, the relation-core seeds are
drawn from the cupy generator, which np.random.seed does not reseed; two
invocations at the same seed and dataset but different ambient cupy
states return different factors, for a conforming kernel that uses its
initial factors. -/
theorem claim_C4_counterexample :
    (rescal_wrapper extCex 0 InitMode.nnsvd [10] 2 0 0 true true 0 0).out
      ≠ (rescal_wrapper extCex 0 InitMode.nnsvd [10] 2 0 0 true true 0 1).out := by
  decide

/-- C4 (amended to the CPU path, use_gpu = False): for a fixed dataset,
rank, epsilon and seed, the trial output is identical across invocations
whatever the ambient numpy and cupy generator states, because
np.random.seed(seed) overwrites the only random source the CPU path
samples from before any sampling. -/
theorem claim_C4_cpu_determinism [Inhabited α] (ext : Externals α)
    (p : Nat) (init : InitMode) (X : List α) (k : Nat) (epsilon : ℚ)
    (gpuid gpuid2 : Nat) (calculate_error : Bool) (g c g2 c2 : Nat) :
    (rescal_wrapper ext p init X k epsilon gpuid false calculate_error g c).out
      = (rescal_wrapper ext p init X k epsilon gpuid2 false calculate_error g2 c2).out :=
  rescal_wrapper_cpu_out_indep ext p init X k epsilon gpuid gpuid2 calculate_error g c g2 c2

/-- C10: with calculate_error set, the error returned by the trial is the
relative reconstruction error of the returned factors measured against
the original unperturbed X (the perturbed copy Y enters the factorization
it produced the factors from, never the error call), on both the GPU and
the CPU paths. -/
theorem claim_C10_error_against_original [Inhabited α] (ext : Externals α)
    (p : Nat) (init : InitMode) (X : List α) (k : Nat) (epsilon : ℚ)
    (gpuid : Nat) (use_gpu : Bool) (g c : Nat) :
    ((rescal_wrapper ext p init X k epsilon gpuid use_gpu true g c).out.error
      = ext.relative_error_rescal X
          (rescal_wrapper ext p init X k epsilon gpuid use_gpu true g c).out.A
          (rescal_wrapper ext p init X k epsilon gpuid use_gpu true g c).out.R)
    ∧ (∃ A0 R0,
        (rescal_wrapper ext p init X k epsilon gpuid use_gpu true g c).out.A
          = (ext.rescal (mapRng (fun m s => ext.uniform_product m epsilon s) X (npRandomSeed p)).1 A0 R0).1
        ∧ (rescal_wrapper ext p init X k epsilon gpuid use_gpu true g c).out.R
          = (ext.rescal (mapRng (fun m s => ext.uniform_product m epsilon s) X (npRandomSeed p)).1 A0 R0).2) := by
  cases use_gpu
  · exact ⟨rfl, _, _, rfl, rfl⟩
  · exact ⟨rfl, _, _, rfl, rfl⟩

/-- Every trial in the sequential list carries error 0 when
calculate_error is unset. -/
theorem seqTrialsFrom_error_zero [Inhabited α] (ext : Externals α) (init : InitMode)
    (X : List α) (k : Nat) (epsilon : ℚ) (use_gpu : Bool) :
    ∀ (n p g c : Nat) (t : TrialOut α),
      t ∈ (seqTrialsFrom ext init X k epsilon use_gpu false p n g c).1 → t.error = 0 := by
  intro n
  induction n with
  | zero => intro p g c t ht; cases ht
  | succ n ih =>
    intro p g c t ht
    simp only [seqTrialsFrom, List.mem_cons] at ht
    cases ht with
    | inl h => rw [h]; exact rescal_wrapper_error_zero ext p init X k epsilon 0 use_gpu g c
    | inr h => exact ih _ _ _ t h

/-- The err_reg entry of one rank row is literally 0 when calculate_error
is unset. -/
theorem rankStep_err_reg_zero [Inhabited α] (ext : Externals α) (init : InitMode)
    (use_gpu : Bool) (n_perturbs : Nat) (epsilon : ℚ) (X : List α) (k g c : Nat) :
    (rankStep ext init use_gpu false n_perturbs epsilon X k g c).1.err_reg = 0 := rfl

/-- C9: with calculate_error unset, the error field is present and equal
to 0 everywhere: the wrapper returns error 0 for every trial (source
lines 137-141), every per-trial errors entry of every rank row is 0, and
the err_reg entry appended for every rank is 0 (source lines 561-565),
so err_reg is exactly a zero array of length len(Ks). -/
theorem claim_C9_zero_errors [Inhabited α] (ext : Externals α) (init : InitMode)
    (use_gpu : Bool) (n_perturbs : Nat) (epsilon : ℚ) (X : List α)
    (Ks : List Nat) (g c : Nat) :
    (∀ (p k2 gpuid g0 c0 : Nat),
        (rescal_wrapper ext p init X k2 epsilon gpuid use_gpu false g0 c0).out.error = 0)
    ∧ (fitLoop ext init use_gpu false n_perturbs epsilon X Ks g c).map
        (fun r => r.err_reg) = List.replicate Ks.length 0
    ∧ (∀ r ∈ fitLoop ext init use_gpu false n_perturbs epsilon X Ks g c,
        ∀ e ∈ r.errors, e = 0) := by
  refine ⟨fun p k2 gpuid g0 c0 => rescal_wrapper_error_zero ext p init X k2 epsilon gpuid use_gpu g0 c0, ?_, ?_⟩
  · induction Ks generalizing g c with
    | nil => rfl
    | cons k2 ks ih =>
      simp only [fitLoop, List.map_cons, List.length_cons, List.replicate_succ]
      exact congrArg₂ (· :: ·) (rankStep_err_reg_zero ext init use_gpu n_perturbs epsilon X k2 g c) (ih _ _)
  · induction Ks generalizing g c with
    | nil => intro r hr; cases hr
    | cons k2 ks ih =>
      intro r hr e he
      simp only [fitLoop, List.mem_cons] at hr
      cases hr with
      | inl h =>
        subst h
        have : e ∈ ((seqRank ext init X k2 epsilon use_gpu false n_perturbs g c).1.map
            (fun t => t.error)) := he
        obtain ⟨t, ht, hte⟩ := List.mem_map.mp this
        rw [← hte]
        exact seqTrialsFrom_error_zero ext init X k2 epsilon use_gpu n_perturbs 0 g c t ht
      | inr h => exact ih _ _ r h e he

/-- The parallel output on the CPU path, for any covering completion
order and any worker state assignment, is the wrapper mapped over the
seed range. -/
theorem parRank_cpu_eq_map [Inhabited α] (ext : Externals α) (init : InitMode)
    (X : List α) (k : Nat) (epsilon : ℚ) (calculate_error : Bool)
    (n_jobs n_perturbs : Nat) (states : Nat → Nat × Nat) (order : List Nat)
    (horder : ∀ p, p < n_perturbs → p ∈ order) :
    parRank ext init X k epsilon false calculate_error n_jobs n_perturbs states order
      = (List.range n_perturbs).map
          (fun p => (rescal_wrapper ext p init X k epsilon 0 false calculate_error 0 0).out) := by
  unfold parRank
  have hpt : (fun pert => (pert,
      parTrial ext init X k epsilon false calculate_error n_jobs states pert))
      = (fun pert => (pert,
      (rescal_wrapper ext pert init X k epsilon 0 false calculate_error 0 0).out)) := by
    funext pert
    exact congrArg (Prod.mk pert)
      (rescal_wrapper_cpu_out_indep ext pert init X k epsilon (pert % n_jobs) 0
        calculate_error (states pert).1 (states pert).2 0 0)
  rw [hpt]
  exact collectInOrder_eq_map _ n_perturbs order horder

/-- C1, counterexample: with use_gpu set the two dispatch paths need not
agree.  Sequentially the single process threads one cupy generator
through both trials, while parallel workers each start from their own
cupy state (here both fresh), so the relation-core seeds of trial 1
differ between the paths and a conforming kernel that uses its initial
factors returns different cores. -/
theorem claim_C1_counterexample :
    parRank extCex InitMode.nnsvd [10] 2 0 true true 2 2 (fun _ => (0, 0)) [0, 1]
      ≠ (seqRank extCex InitMode.nnsvd [10] 2 0 true true 2 0 0).1 := by
  decide

/-- C1 (amended to the CPU path, use_gpu = False): for every dataset,
rank and n_perturbs, the sequential and the parallel dispatch paths
produce equal trial lists — hence equal stacked A_all, R_all and errors
arrays — with the entry at trial axis position p being the trial with
seed p, in ascending seed order, independent of the workers' completion
order and of every worker's generator state. -/
theorem claim_C1_scheduler_paths_agree [Inhabited α] (ext : Externals α)
    (init : InitMode) (X : List α) (k : Nat) (epsilon : ℚ)
    (calculate_error : Bool) (n_jobs n_perturbs : Nat)
    (states : Nat → Nat × Nat) (order : List Nat) (g c : Nat)
    (horder : ∀ p, p < n_perturbs → p ∈ order) :
    (parRank ext init X k epsilon false calculate_error n_jobs n_perturbs states order
      = (seqRank ext init X k epsilon false calculate_error n_perturbs g c).1)
    ∧ (∀ p, p < n_perturbs →
        (parRank ext init X k epsilon false calculate_error n_jobs n_perturbs states order)[p]?
          = some (rescal_wrapper ext p init X k epsilon 0 false calculate_error 0 0).out)
    ∧ (ext.stackA ((parRank ext init X k epsilon false calculate_error n_jobs n_perturbs states order).map (fun t => t.A))
        = ext.stackA (((seqRank ext init X k epsilon false calculate_error n_perturbs g c).1).map (fun t => t.A)))
    ∧ (ext.stackR ((parRank ext init X k epsilon false calculate_error n_jobs n_perturbs states order).map (fun t => t.R))
        = ext.stackR (((seqRank ext init X k epsilon false calculate_error n_perturbs g c).1).map (fun t => t.R)))
    ∧ ((parRank ext init X k epsilon false calculate_error n_jobs n_perturbs states order).map (fun t => t.error)
        = ((seqRank ext init X k epsilon false calculate_error n_perturbs g c).1).map (fun t => t.error)) := by
  have hpar := parRank_cpu_eq_map ext init X k epsilon calculate_error n_jobs
    n_perturbs states order horder
  have hseq : (seqRank ext init X k epsilon false calculate_error n_perturbs g c).1
      = (List.range n_perturbs).map
          (fun p => (rescal_wrapper ext p init X k epsilon 0 false calculate_error 0 0).out) := by
    unfold seqRank
    rw [seqTrialsFrom_cpu_eq_map ext init X k epsilon calculate_error n_perturbs 0 g c]
    apply List.map_congr_left
    intro t _
    rw [Nat.zero_add]
  have heq : parRank ext init X k epsilon false calculate_error n_jobs n_perturbs states order
      = (seqRank ext init X k epsilon false calculate_error n_perturbs g c).1 := by
    rw [hpar, hseq]
  refine ⟨heq, ?_, congrArg _ (congrArg _ heq), congrArg _ (congrArg _ heq),
    congrArg _ heq⟩
  intro p hp
  rw [hpar]
  simp [List.getElem?_map, List.getElem?_range, hp]

/-- C1, witness: the amended theorem applied at a concrete run of two
trials with completion order reversed. -/
theorem claim_C1_witness :
    parRank extCex InitMode.nnsvd [10] 2 0 false true 2 2 (fun _ => (0, 0)) [1, 0]
      = (seqRank extCex InitMode.nnsvd [10] 2 0 false true 2 0 0).1 :=
  (claim_C1_scheduler_paths_agree extCex InitMode.nnsvd [10] 2 0 true 2 2
    (fun _ => (0, 0)) [1, 0] 0 0
    (fun p hp => by
      have hp2 : p = 0 ∨ p = 1 := by omega
      rcases hp2 with h | h <;> subst h <;> decide)).1

/-- C2: on both scheduler paths the seeds handed to the trial wrapper are
exactly the distinct integers 0 .. n_perturbs - 1 (source lines 483 and
517), n_perturbs trials are produced, and the trial stored at position p
of either path's output is the wrapper invoked with seed p. -/
theorem claim_C2_seed_coverage [Inhabited α] (ext : Externals α) (init : InitMode)
    (X : List α) (k : Nat) (epsilon : ℚ) (use_gpu calculate_error : Bool)
    (n_jobs n_perturbs : Nat) (states : Nat → Nat × Nat) (order : List Nat)
    (g c : Nat) (horder : ∀ p, p < n_perturbs → p ∈ order) :
    seqSeeds n_perturbs = parSeeds n_perturbs
    ∧ (seqSeeds n_perturbs).Nodup
    ∧ (∀ s, s ∈ seqSeeds n_perturbs ↔ s < n_perturbs)
    ∧ (seqSeeds n_perturbs).length = n_perturbs
    ∧ (seqRank ext init X k epsilon use_gpu calculate_error n_perturbs g c).1.length = n_perturbs
    ∧ (∀ p, p < n_perturbs → ∃ g2 c2,
        ((seqRank ext init X k epsilon use_gpu calculate_error n_perturbs g c).1)[p]?
          = some (rescal_wrapper ext p init X k epsilon 0 use_gpu calculate_error g2 c2).out)
    ∧ (∀ p, p < n_perturbs →
        (parRank ext init X k epsilon use_gpu calculate_error n_jobs n_perturbs states order)[p]?
          = some (rescal_wrapper ext p init X k epsilon (p % n_jobs) use_gpu calculate_error
              (states p).1 (states p).2).out) := by
  refine ⟨rfl, List.nodup_range n_perturbs, fun s => List.mem_range,
    List.length_range n_perturbs,
    seqTrialsFrom_length ext init X k epsilon use_gpu calculate_error n_perturbs 0 g c,
    ?_, ?_⟩
  · intro p hp
    obtain ⟨g2, c2, h2⟩ := seqTrialsFrom_getElem? ext init X k epsilon use_gpu
      calculate_error n_perturbs 0 g c p hp
    refine ⟨g2, c2, ?_⟩
    rw [show (0 + p = p) from Nat.zero_add p] at h2
    exact h2
  · intro p hp
    exact parRank_getElem? ext init X k epsilon use_gpu calculate_error n_jobs
      n_perturbs states order horder p hp

/-- C2, witness: the theorem applied at a concrete two-trial run. -/
theorem claim_C2_witness :
    (seqRank extCex InitMode.nnsvd [10] 2 0 false true 2 0 0).1.length = 2 :=
  (claim_C2_seed_coverage extCex InitMode.nnsvd [10] 2 0 false true 2 2
    (fun _ => (0, 0)) [1, 0] 0 0
    (fun p hp => by
      have hp2 : p = 0 ∨ p = 1 := by omega
      rcases hp2 with h | h <;> subst h <;> decide)).2.2.2.2.1

/-- C5, counterexample: on the GPU path the constructor never clamps the
worker count to n_perturbs.  With 4 GPUs, a request of 4 jobs and
n_perturbs = 2, the effective n_jobs stays 4, not min(requested,
n_perturbs) = 2 (the clamp at source lines 333-334 sits inside the CPU
else-branch). -/
theorem claim_C5_counterexample :
    (resolve_n_jobs 4 true 4 8 2).toOption.map (fun j => j.n_jobs) = some 4
    ∧ ¬((4 : Int) ≤ min (4 : Int) 2) := by
  decide

/-- C5 (amended): for a positive request, requesting more workers than
the available resource count (GPU count on the GPU path, CPU count
otherwise) clamps the effective n_jobs to the available count with a
warning and never raises; the additional clamp to n_perturbs applies only
on the CPU path (including the path reached by the no-GPU downgrade),
where the effective count is min(min(requested, cpus), n_perturbs). -/
theorem claim_C5_resource_clamping (n_jobs : Int) (use_gpu : Bool)
    (n_gpus n_cpus : Nat) (n_perturbs : Int)
    (hreq : 1 ≤ n_jobs) :
    (use_gpu = true → 1 ≤ n_gpus →
      resolve_n_jobs n_jobs use_gpu n_gpus n_cpus n_perturbs
        = Except.ok ⟨min n_jobs (n_gpus : Int), true, false, decide ((n_gpus : Int) < n_jobs)⟩)
    ∧ (use_gpu = false →
      resolve_n_jobs n_jobs use_gpu n_gpus n_cpus n_perturbs
        = Except.ok ⟨min (min n_jobs (n_cpus : Int)) n_perturbs, false, false,
            decide ((n_cpus : Int) < n_jobs)⟩)
    ∧ (use_gpu = true → n_gpus = 0 →
      resolve_n_jobs n_jobs use_gpu n_gpus n_cpus n_perturbs
        = Except.ok ⟨min (min n_jobs (n_cpus : Int)) n_perturbs, false, true,
            decide ((n_cpus : Int) < n_jobs)⟩) := by
  have hneg : ¬(n_jobs < 0) := by omega
  refine ⟨?_, ?_, ?_⟩
  · intro hug hgpus
    subst hug
    have h0 : ¬(True ∧ n_gpus = 0) := by simp; omega
    simp only [resolve_n_jobs, resolved_request, h0, if_false, hneg, if_true]
    have hj1 : ¬(n_jobs ≤ 0) := by omega
    rw [if_neg hj1]
    by_cases hlt : (n_gpus : Int) < n_jobs
    · rw [if_pos hlt]
      have hmin : min n_jobs (n_gpus : Int) = (n_gpus : Int) := by omega
      simp [hmin, hlt]
    · rw [if_neg hlt]
      have hmin : min n_jobs (n_gpus : Int) = n_jobs := by omega
      simp [hmin, hlt]
  · intro hug
    subst hug
    have h0 : ¬(False ∧ n_gpus = 0) := by simp
    simp only [resolve_n_jobs, resolved_request, h0, if_false, hneg]
    have hj1 : ¬(n_jobs ≤ 0) := by omega
    rw [if_neg hj1]
    by_cases hlt : (n_cpus : Int) < n_jobs
    · rw [if_pos hlt]
      by_cases hp : (n_cpus : Int) > n_perturbs
      · rw [if_pos hp]
        have hmin : min (min n_jobs (n_cpus : Int)) n_perturbs = n_perturbs := by omega
        simp [hmin, hlt]
      · rw [if_neg hp]
        have hmin : min (min n_jobs (n_cpus : Int)) n_perturbs = (n_cpus : Int) := by omega
        simp [hmin, hlt]
    · rw [if_neg hlt]
      by_cases hp : n_jobs > n_perturbs
      · rw [if_pos hp]
        have hmin : min (min n_jobs (n_cpus : Int)) n_perturbs = n_perturbs := by omega
        simp [hmin, hlt]
      · rw [if_neg hp]
        have hmin : min (min n_jobs (n_cpus : Int)) n_perturbs = n_jobs := by omega
        simp [hmin, hlt]
  · intro hug hgz
    subst hug
    subst hgz
    have h0 : (True ∧ (0 : Nat) = 0) := by simp
    simp only [resolve_n_jobs, resolved_request, h0, if_true, hneg, if_false]
    have hj1 : ¬(n_jobs ≤ 0) := by omega
    rw [if_neg hj1]
    by_cases hlt : (n_cpus : Int) < n_jobs
    · rw [if_pos hlt]
      by_cases hp : (n_cpus : Int) > n_perturbs
      · rw [if_pos hp]
        have hmin : min (min n_jobs (n_cpus : Int)) n_perturbs = n_perturbs := by omega
        simp [hmin, hlt]
      · rw [if_neg hp]
        have hmin : min (min n_jobs (n_cpus : Int)) n_perturbs = (n_cpus : Int) := by omega
        simp [hmin, hlt]
    · rw [if_neg hlt]
      by_cases hp : n_jobs > n_perturbs
      · rw [if_pos hp]
        have hmin : min (min n_jobs (n_cpus : Int)) n_perturbs = n_perturbs := by omega
        simp [hmin, hlt]
      · rw [if_neg hp]
        have hmin : min (min n_jobs (n_cpus : Int)) n_perturbs = n_jobs := by omega
        simp [hmin, hlt]

/-- C5, witness: the amended theorem at a concrete GPU run where the
request exceeds the device count. -/
theorem claim_C5_witness :
    resolve_n_jobs 5 true 2 3 4 = Except.ok ⟨2, true, false, true⟩ := by
  have h := (claim_C5_resource_clamping 5 true 2 3 4 (by decide)).1 rfl
    (by decide)
  simpa using h

/-- A worker request that resolves to zero or fewer resources makes the
constructor raise (source lines 314-316). -/
theorem resolve_n_jobs_nonpos (n_jobs : Int) (use_gpu : Bool)
    (n_gpus n_cpus : Nat) (n_perturbs : Int)
    (h : resolved_request n_jobs
        (if use_gpu ∧ n_gpus = 0 then false else use_gpu) n_gpus n_cpus ≤ 0) :
    resolve_n_jobs n_jobs use_gpu n_gpus n_cpus n_perturbs
      = Except.error "Number of GPUs or CPUs must be 1 or more." := by
  by_cases hc : use_gpu = true ∧ n_gpus = 0
  · obtain ⟨hu, hg⟩ := hc
    subst hu
    subst hg
    rw [if_pos (by simp)] at h
    simp [resolve_n_jobs, h]
  · rw [if_neg hc] at h
    simp [resolve_n_jobs, hc, h]

/-- A failing worker-count resolution propagates to a construction-time
error whatever the other options are. -/
theorem init_validate_resolve_error (inits : String) (n_nodes : Nat)
    (mpi : Bool) (n_jobs : Int) (use_gpu : Bool) (n_gpus n_cpus : Nat)
    (n_perturbs : Int) (method : String) (e : String)
    (h : resolve_n_jobs n_jobs use_gpu n_gpus n_cpus n_perturbs = Except.error e) :
    ∃ msg, init_validate inits n_nodes mpi n_jobs use_gpu n_gpus n_cpus
      n_perturbs method = Except.error msg := by
  unfold init_validate
  by_cases h1 : ¬(inits = "nnsvd" ∨ inits = "random")
  · rw [if_pos h1]; exact ⟨_, rfl⟩
  · rw [if_neg h1]
    by_cases h2 : n_nodes > 1 ∧ ¬(mpi = true)
    · rw [if_pos h2]; exact ⟨_, rfl⟩
    · rw [if_neg h2]
      rw [h]
      exact ⟨_, rfl⟩

/-- C6: every configuration error is raised before any trial executes:
an invalid init mode fails construction (source lines 259-261); multiple
nodes without the MPI transport abort construction (source lines
263-264); a worker request resolving to zero or fewer resources,
including a request of exactly 0, fails construction (source lines
314-316); an empty rank list makes fit raise before the rank loop is
entered (source lines 396-397), so the error branch carries no rank row
and no trial.  Each of these is a terminal error value, never retried. -/
theorem claim_C6_config_errors_fatal [Inhabited α] (ext : Externals α)
    (initm : InitMode) (use_gpu calculate_error : Bool) (n_perturbsN : Nat)
    (epsilon : ℚ) (X : List α) (Ks : List Nat) (g c : Nat)
    (inits : String) (n_nodes : Nat) (mpi : Bool) (n_jobs : Int)
    (n_gpus n_cpus : Nat) (n_perturbs : Int) (method : String) :
    (¬(inits = "nnsvd" ∨ inits = "random") →
      ∃ msg, init_validate inits n_nodes mpi n_jobs use_gpu n_gpus n_cpus
        n_perturbs method = Except.error msg)
    ∧ (n_nodes > 1 → mpi = false →
      ∃ msg, init_validate inits n_nodes mpi n_jobs use_gpu n_gpus n_cpus
        n_perturbs method = Except.error msg)
    ∧ (resolved_request n_jobs
        (if use_gpu ∧ n_gpus = 0 then false else use_gpu) n_gpus n_cpus ≤ 0 →
      ∃ msg, init_validate inits n_nodes mpi n_jobs use_gpu n_gpus n_cpus
        n_perturbs method = Except.error msg)
    ∧ (n_jobs = 0 →
      ∃ msg, init_validate inits n_nodes mpi n_jobs use_gpu n_gpus n_cpus
        n_perturbs method = Except.error msg)
    ∧ (Ks.length = 0 →
      fit ext initm use_gpu calculate_error n_perturbsN epsilon X Ks g c
        = Except.error "Ks range is 0!") := by
  refine ⟨?_, ?_, ?_, ?_, ?_⟩
  · intro h1
    unfold init_validate
    rw [if_pos h1]
    exact ⟨_, rfl⟩
  · intro hn hmpi
    unfold init_validate
    by_cases h1 : ¬(inits = "nnsvd" ∨ inits = "random")
    · rw [if_pos h1]; exact ⟨_, rfl⟩
    · rw [if_neg h1]
      rw [if_pos (by simp [hmpi]; omega)]
      exact ⟨_, rfl⟩
  · intro h
    exact init_validate_resolve_error inits n_nodes mpi n_jobs use_gpu n_gpus
      n_cpus n_perturbs method _
      (resolve_n_jobs_nonpos n_jobs use_gpu n_gpus n_cpus n_perturbs h)
  · intro h0
    subst h0
    refine init_validate_resolve_error inits n_nodes mpi 0 use_gpu n_gpus
      n_cpus n_perturbs method _
      (resolve_n_jobs_nonpos 0 use_gpu n_gpus n_cpus n_perturbs ?_)
    unfold resolved_request
    split <;> omega
  · intro hks
    unfold fit
    rw [if_pos hks]

/-- C6, witness: a request of zero workers fails construction at concrete
settings. -/
theorem claim_C6_witness :
    ∃ msg, init_validate "nnsvd" 1 true 0 false 0 4 20 "rescal_fro_mu"
      = Except.error msg :=
  (claim_C6_config_errors_fatal extCex InitMode.nnsvd false true 20 0 [10] [2] 0 0
    "nnsvd" 1 true 0 0 4 20 "rescal_fro_mu").2.2.2.1 rfl

/-- A running fold of min never exceeds its accumulator. -/
theorem foldl_min_le_init (xs : List ℚ) : ∀ a : ℚ, xs.foldl min a ≤ a := by
  induction xs with
  | nil => intro a; exact le_refl a
  | cons x xs ih => intro a; exact le_trans (ih (min a x)) (min_le_left a x)

/-- A running fold of min never exceeds any traversed element. -/
theorem foldl_min_le_mem (xs : List ℚ) : ∀ (a x : ℚ), x ∈ xs → xs.foldl min a ≤ x := by
  induction xs with
  | nil => intro a x hx; cases hx
  | cons y ys ih =>
    intro a x hx
    cases hx with
    | head => exact le_trans (foldl_min_le_init ys (min a y)) (min_le_right a y)
    | tail _ h => exact ih (min a y) x h

/-- npMin bounds every element of the array from below. -/
theorem npMin_le_forall (l : List ℚ) : ∀ x ∈ l, npMin l ≤ x := by
  match l with
  | [] => intro x hx; cases hx
  | y :: ys =>
    intro x hx
    cases hx with
    | head => exact foldl_min_le_init ys y
    | tail _ h => exact foldl_min_le_mem ys y x h

/-- The mean of a nonempty array is at most any upper bound of its
elements. -/
theorem npMean_le (l : List ℚ) (hl : l ≠ []) (b : ℚ) (h : ∀ x ∈ l, x ≤ b) :
    npMean l ≤ b := by
  unfold npMean
  have hlen : 0 < (l.length : ℚ) := by
    have := List.length_pos.mpr hl
    exact_mod_cast this
  rw [div_le_iff₀ hlen]
  have hs := List.sum_le_card_nsmul l b h
  rwa [nsmul_eq_mul, mul_comm] at hs

/-- The mean of a nonempty array is at least any lower bound of its
elements. -/
theorem le_npMean (l : List ℚ) (hl : l ≠ []) (m : ℚ) (h : ∀ x ∈ l, m ≤ x) :
    m ≤ npMean l := by
  unfold npMean
  have hlen : 0 < (l.length : ℚ) := by
    have := List.length_pos.mpr hl
    exact_mod_cast this
  rw [le_div_iff₀ hlen]
  have hs := List.card_nsmul_le_sum l m h
  rwa [nsmul_eq_mul, mul_comm] at hs

/-- C8: assuming the external silhouette primitive returns, for any
clustering, a nonempty matrix of per-entity scores with nonempty rows and
every score at most 1, the statistics derived at source lines 533-537
satisfy sils_min <= sils_mean <= 1: both for the standalone derivations
(the minimum and the mean of the per-cluster mean silhouettes) and for
the row produced by the per-rank step of fit. -/
theorem claim_C8_silhouette_bounds [Inhabited α] (ext : Externals α)
    (init : InitMode) (use_gpu calculate_error : Bool) (n_perturbs : Nat)
    (epsilon : ℚ) (X : List α) (k g c : Nat) (sils_all : List (List ℚ))
    (hne : sils_all ≠ [])
    (hrows : ∀ row ∈ sils_all, row ≠ [])
    (hscores : ∀ row ∈ sils_all, ∀ x ∈ row, x ≤ 1)
    (hext : ∀ a : α, ext.silhouettes a ≠ [] ∧
      ∀ row ∈ ext.silhouettes a, row ≠ [] ∧ ∀ x ∈ row, x ≤ 1) :
    (sils_min_of sils_all ≤ sils_mean_of sils_all ∧ sils_mean_of sils_all ≤ 1)
    ∧ ((rankStep ext init use_gpu calculate_error n_perturbs epsilon X k g c).1.s_min
        ≤ (rankStep ext init use_gpu calculate_error n_perturbs epsilon X k g c).1.s_mean
      ∧ (rankStep ext init use_gpu calculate_error n_perturbs epsilon X k g c).1.s_mean ≤ 1) := by
  have core : ∀ s : List (List ℚ), s ≠ [] → (∀ row ∈ s, row ≠ []) →
      (∀ row ∈ s, ∀ x ∈ row, x ≤ 1) →
      npMin (s.map npMean) ≤ npMean (s.map npMean) ∧ npMean (s.map npMean) ≤ 1 := by
    intro s hs hr hb
    have hmapne : s.map npMean ≠ [] := by
      simpa [List.map_eq_nil_iff] using hs
    constructor
    · exact le_npMean _ hmapne _ (npMin_le_forall _)
    · apply npMean_le _ hmapne 1
      intro x hx
      obtain ⟨row, hrow, hxe⟩ := List.mem_map.mp hx
      rw [← hxe]
      exact npMean_le row (hr row hrow) 1 (hb row hrow)
  refine ⟨core sils_all hne hrows hscores, ?_⟩
  obtain ⟨h1, h2⟩ := hext (ext.custom_k_means (ext.stackA
    (((seqRank ext init X k epsilon use_gpu calculate_error n_perturbs g c).1).map
      (fun t => t.A)))).2
  exact core _ h1 (fun row hr => (h2 row hr).1) (fun row hr => (h2 row hr).2)

/-- C8, witness: the bounds at a concrete score matrix and a concrete
rank step. -/
theorem claim_C8_witness :
    (sils_min_of [[1, 0]] ≤ sils_mean_of [[1, 0]]
      ∧ sils_mean_of [[1, 0]] ≤ 1)
    ∧ ((rankStep extCex InitMode.nnsvd false true 2 0 [10] 2 0 0).1.s_min
        ≤ (rankStep extCex InitMode.nnsvd false true 2 0 [10] 2 0 0).1.s_mean
      ∧ (rankStep extCex InitMode.nnsvd false true 2 0 [10] 2 0 0).1.s_mean ≤ 1) := by
  exact claim_C8_silhouette_bounds extCex InitMode.nnsvd false true 2 0 [10] 2 0 0
    [[1, 0]] (by decide) (by decide) (by decide)
    (by intro a; constructor <;> simp [extCex])

/-- Reading a list back by indices 0 .. length - 1 reproduces it. -/
theorem getD_range_map (l : List γ) (d : γ) :
    (List.range l.length).map (fun i => l.getD i d) = l := by
  induction l with
  | nil => rfl
  | cons x xs ih =>
    rw [List.length_cons, List.range_succ_eq_map, List.map_cons, List.map_map]
    refine congrArg₂ (· :: ·) rfl ?_
    rw [show ((fun i => (x :: xs).getD i d) ∘ Nat.succ) = (fun i => xs.getD i d)
      from funext (fun i => List.getD_cons_succ)]
    exact ih

/-- The argsort indices are a permutation of the positions of the keys. -/
theorem argsort_perm_range (l : List Nat) :
    (argsort l).Perm (List.range l.length) :=
  List.perm_insertionSort _ _

/-- The keys read back through the argsort indices are ascending. -/
theorem argsort_keys_sorted (l : List Nat) :
    List.Sorted (fun a b => a ≤ b) ((argsort l).map (fun i => l.getD i 0)) := by
  unfold argsort
  show List.Pairwise _ _
  rw [List.pairwise_map]
  haveI h1 : IsTotal Nat (fun i j => l.getD i 0 ≤ l.getD j 0) :=
    ⟨fun a b => le_total _ _⟩
  haveI h2 : IsTrans Nat (fun i j => l.getD i 0 ≤ l.getD j 0) :=
    ⟨fun a b c hab hbc => le_trans hab hbc⟩
  exact List.sorted_insertionSort _ _

/-- C7: in the multi-node FINALIZE phase every node passes the barrier
then the gather (source lines 625-628); node 0 merges the gathered rows
and re-sorts the merged rank keys ascending, reindexing every statistics
array by the one argsort permutation (source lines 631-659), so the
merged Ks is sorted, is a permutation of the concatenation of the nodes'
Ks, and all seven arrays are aligned by a single common permutation of
positions; every node other than 0 terminates after the gather with no
result (source line 665). -/
theorem claim_C7_multinode_finalize (rank : Nat) (datas : List ShareData) :
    (node_finalize rank datas).mpi_ops = ["Barrier", "gather"]
    ∧ (rank ≠ 0 → (node_finalize rank datas).result = none)
    ∧ (rank = 0 → (node_finalize rank datas).result = some (merge_finalize datas))
    ∧ List.Sorted (fun a b => a ≤ b) (merge_finalize datas).Ks
    ∧ (merge_finalize datas).Ks.Perm (gather_concat datas).Ks
    ∧ (∃ idx, idx.Perm (List.range (gather_concat datas).Ks.length)
        ∧ (merge_finalize datas).Ks = applyIdxN idx (gather_concat datas).Ks
        ∧ (merge_finalize datas).sils_min = applyIdxQ idx (gather_concat datas).sils_min
        ∧ (merge_finalize datas).sils_mean = applyIdxQ idx (gather_concat datas).sils_mean
        ∧ (merge_finalize datas).sils_std = applyIdxQ idx (gather_concat datas).sils_std
        ∧ (merge_finalize datas).err_reg = applyIdxQ idx (gather_concat datas).err_reg
        ∧ (merge_finalize datas).err_mean = applyIdxQ idx (gather_concat datas).err_mean
        ∧ (merge_finalize datas).err_std = applyIdxQ idx (gather_concat datas).err_std) := by
  refine ⟨rfl, ?_, ?_, ?_, ?_, ?_⟩
  · intro h
    simp [node_finalize, h]
  · intro h
    simp [node_finalize, h]
  · exact argsort_keys_sorted (gather_concat datas).Ks
  · have hperm := (argsort_perm_range (gather_concat datas).Ks).map
      (fun i => (gather_concat datas).Ks.getD i 0)
    have hread := getD_range_map (gather_concat datas).Ks 0
    have h1 : (merge_finalize datas).Ks
        = (argsort (gather_concat datas).Ks).map
            (fun i => (gather_concat datas).Ks.getD i 0) := rfl
    rw [hread] at hperm
    rw [h1]
    exact hperm
  · exact ⟨argsort (gather_concat datas).Ks,
      argsort_perm_range (gather_concat datas).Ks,
      rfl, rfl, rfl, rfl, rfl, rfl, rfl⟩

/-- C7, witness: a non-root node returns no result at concrete gathered
data. -/
theorem claim_C7_witness :
    (node_finalize 1 [⟨[3], [0], [0], [0], [0], [0], [0]⟩]).result = none :=
  (claim_C7_multinode_finalize 1 [⟨[3], [0], [0], [0], [0], [0], [0]⟩]).2.1
    (by decide)

/-- Appending into one chunk keeps the number of chunks. -/
theorem appendAt_length : ∀ (cs : List (List α)) (i : Nat) (x : α),
    (appendAt cs i x).length = cs.length := by
  intro cs
  induction cs with
  | nil => intro i x; rfl
  | cons c cs ih =>
    intro i x
    match i with
    | 0 => rfl
    | i + 1 =>
      rw [show appendAt (c :: cs) (i + 1) x = c :: appendAt cs i x from rfl,
        List.length_cons, List.length_cons, ih]

/-- Appending into chunk i leaves every other chunk unchanged. -/
theorem appendAt_getD_ne : ∀ (cs : List (List α)) (i j : Nat) (x : α), j ≠ i →
    (appendAt cs i x).getD j [] = cs.getD j [] := by
  intro cs
  induction cs with
  | nil => intro i j x _; rfl
  | cons c cs ih =>
    intro i j x h
    match i, j with
    | 0, 0 => exact absurd rfl h
    | 0, j + 1 => rfl
    | i + 1, 0 => rfl
    | i + 1, j + 1 =>
      rw [show appendAt (c :: cs) (i + 1) x = c :: appendAt cs i x from rfl,
        List.getD_cons_succ, List.getD_cons_succ]
      exact ih i j x (by omega)

/-- Appending into chunk i appends to the i-th chunk. -/
theorem appendAt_getD_eq : ∀ (cs : List (List α)) (i : Nat) (x : α),
    i < cs.length → (appendAt cs i x).getD i [] = cs.getD i [] ++ [x] := by
  intro cs
  induction cs with
  | nil => intro i x h; simp at h
  | cons c cs ih =>
    intro i x h
    match i with
    | 0 => rfl
    | i + 1 =>
      rw [show appendAt (c :: cs) (i + 1) x = c :: appendAt cs i x from rfl,
        List.getD_cons_succ, List.getD_cons_succ]
      exact ih i x (by simpa using h)

/-- The distribution loop keeps the number of chunks. -/
theorem chunkLoop_length (nc : Nat) : ∀ (Ks : List α) (s : Nat) (cs : List (List α)),
    (chunkLoop nc s Ks cs).length = cs.length := by
  intro Ks
  induction Ks with
  | nil => intro s cs; rfl
  | cons x xs ih =>
    intro s cs
    rw [show chunkLoop nc s (x :: xs) cs
        = chunkLoop nc (s + 1) xs (appendAt cs (s % nc) x) from rfl,
      ih, appendAt_length]

/-- The sublist of elements the round-robin distribution sends to chunk
i, when the running index starts at s. -/
def rrFilter (nc i : Nat) : Nat → List α → List α
  | _, [] => []
  | s, x :: xs =>
    if s % nc = i then x :: rrFilter nc i (s + 1) xs else rrFilter nc i (s + 1) xs

/-- Characterization of the distribution loop: chunk i ends up holding
its initial content followed by the elements whose running index is
congruent to i. -/
theorem chunkLoop_getD (nc : Nat) :
    ∀ (Ks : List α) (i s : Nat) (cs : List (List α)), i < cs.length →
      (chunkLoop nc s Ks cs).getD i [] = cs.getD i [] ++ rrFilter nc i s Ks := by
  intro Ks
  induction Ks with
  | nil =>
    intro i s cs _
    rw [show chunkLoop nc s ([] : List α) cs = cs from rfl,
      show rrFilter nc i s ([] : List α) = [] from rfl, List.append_nil]
  | cons x xs ih =>
    intro i s cs hi
    rw [show chunkLoop nc s (x :: xs) cs
        = chunkLoop nc (s + 1) xs (appendAt cs (s % nc) x) from rfl]
    rw [ih i (s + 1) _ (by rw [appendAt_length]; exact hi)]
    by_cases hsi : s % nc = i
    · subst hsi
      rw [appendAt_getD_eq cs (s % nc) x hi]
      rw [show rrFilter nc (s % nc) s (x :: xs)
          = x :: rrFilter nc (s % nc) (s + 1) xs from by simp [rrFilter]]
      simp [List.append_assoc]
    · rw [appendAt_getD_ne cs (s % nc) i x (by omega)]
      rw [show rrFilter nc i s (x :: xs) = rrFilter nc i (s + 1) xs from by
        simp [rrFilter, hsi]]

/-- The round-robin sublist read off positionally: the elements at the
positions whose shifted index is congruent to i. -/
theorem rrFilter_eq_map (nc i : Nat) (d : α) :
    ∀ (Ks : List α) (s : Nat),
      rrFilter nc i s Ks
        = ((List.range Ks.length).filter (fun t => (s + t) % nc = i)).map
            (fun t => Ks.getD t d) := by
  intro Ks
  induction Ks with
  | nil => intro s; rfl
  | cons x xs ih =>
    intro s
    rw [List.length_cons, List.range_succ_eq_map, List.filter_cons]
    have hcomp : ((fun t => decide ((s + t) % nc = i)) ∘ Nat.succ)
        = (fun t => decide ((s + 1 + t) % nc = i)) := by
      funext t
      simp only [Function.comp_apply]
      have h : s + Nat.succ t = s + 1 + t := by omega
      rw [h]
    by_cases h0 : s % nc = i
    · rw [if_pos (by simpa using h0)]
      rw [show rrFilter nc i s (x :: xs) = x :: rrFilter nc i (s + 1) xs from by
        simp [rrFilter, h0]]
      rw [List.map_cons, List.filter_map, List.map_map, hcomp]
      refine congrArg₂ (· :: ·) rfl ?_
      rw [ih (s + 1)]
      apply List.map_congr_left
      intro t _
      simp only [Function.comp_apply]
      exact List.getD_cons_succ.symm
    · rw [if_neg (by simpa using h0)]
      rw [show rrFilter nc i s (x :: xs) = rrFilter nc i (s + 1) xs from by
        simp [rrFilter, h0]]
      rw [List.filter_map, List.map_map, hcomp]
      rw [ih (s + 1)]
      apply List.map_congr_left
      intro t _
      simp only [Function.comp_apply]
      exact List.getD_cons_succ.symm

/-- Number of positions below L congruent to i modulo N, in closed form
(the ceiling of (L - i) / N). -/
def rrCount (L N i : Nat) : Nat := (L - i + N - 1) / N

/-- The count of positions below L with residue i equals the closed
form. -/
theorem filter_range_mod_length (N i : Nat) (hN : 0 < N) (hi : i < N) :
    ∀ L, ((List.range L).filter (fun t => t % N = i)).length = rrCount L N i := by
  intro L
  induction L with
  | zero =>
    rw [show (List.range 0).filter (fun t => t % N = i) = [] from rfl]
    rw [show rrCount 0 N i = (0 - i + N - 1) / N from rfl]
    rw [Nat.div_eq_of_lt (by omega)]
    rfl
  | succ L ihL =>
    rw [List.range_succ, List.filter_append, List.length_append, ihL]
    by_cases hL : L % N = i
    · rw [show (List.filter (fun t => t % N = i) [L]) = [L] from by simp [hL]]
      have hiL : i ≤ L := by
        have := Nat.mod_le L N
        omega
      have hdvd : N ∣ L - i := by
        have hmeq : i ≡ L [MOD N] := by
          show i % N = L % N
          rw [Nat.mod_eq_of_lt hi, hL]
        exact (Nat.modEq_iff_dvd' hiL).mp hmeq
      obtain ⟨m, hm⟩ := hdvd
      have c1 : rrCount L N i = m := by
        rw [show rrCount L N i = (L - i + N - 1) / N from rfl]
        rw [show L - i + N - 1 = N * m + (N - 1) from by omega]
        rw [Nat.mul_add_div hN, Nat.div_eq_of_lt (by omega)]
        omega
      have c2 : rrCount (L + 1) N i = m + 1 := by
        rw [show rrCount (L + 1) N i = (L + 1 - i + N - 1) / N from rfl]
        have hexp : N * (m + 1) = N * m + N := by ring
        rw [show L + 1 - i + N - 1 = N * (m + 1) + 0 from by omega]
        rw [Nat.mul_add_div hN, Nat.zero_div]
      rw [c1, c2]
      rfl
    · rw [show (List.filter (fun t => t % N = i) [L]) = [] from by simp [hL]]
      by_cases hiL : i ≤ L
      · have hndvd : ¬N ∣ L - i := by
          intro hd
          apply hL
          obtain ⟨m, hm⟩ := hd
          have hLm : L = N * m + i := by omega
          rw [hLm, Nat.mul_add_mod, Nat.mod_eq_of_lt hi]
        have c2 : rrCount (L + 1) N i = rrCount L N i := by
          rw [show rrCount (L + 1) N i = ((L - i + N - 1) + 1) / N from by
            rw [show rrCount (L + 1) N i = (L + 1 - i + N - 1) / N from rfl]
            congr 1
            omega]
          rw [Nat.succ_div]
          rw [if_neg (by
            intro hd
            apply hndvd
            have hd2 : N ∣ L - i + N := by
              have heq : L - i + N - 1 + 1 = L - i + N := by omega
              rwa [heq] at hd
            exact Nat.dvd_add_self_right.mp hd2)]
          rw [Nat.add_zero]
          rfl
        rw [c2]
        simp
      · have c2 : rrCount (L + 1) N i = rrCount L N i := by
          rw [show rrCount (L + 1) N i = (L + 1 - i + N - 1) / N from rfl,
            show rrCount L N i = (L - i + N - 1) / N from rfl]
          congr 1
          omega
        rw [c2]
        rfl

/-- The closed-form count is the floor or the ceiling of L / N, for a
residue class below N on a range of length at least N. -/
theorem rrCount_floor_or_ceil (L N i : Nat) (hN : 0 < N) (hi : i < N)
    (hNL : N ≤ L) : rrCount L N i = L / N ∨ rrCount L N i = (L + N - 1) / N := by
  have hlow : L / N ≤ rrCount L N i := Nat.div_le_div_right (by omega)
  have hhigh : rrCount L N i ≤ (L + N - 1) / N := Nat.div_le_div_right (by omega)
  have hceil : (L + N - 1) / N ≤ L / N + 1 := by
    have hlt : L + N - 1 < (L / N + 2) * N := by
      have hdm := Nat.div_add_mod L N
      have hml := Nat.mod_lt L hN
      have hexp : (L / N + 2) * N = N * (L / N) + 2 * N := by ring
      omega
    have := (Nat.div_lt_iff_lt_mul hN).mpr hlt
    omega
  omega

/-- The positions below L with residue i, in ascending order, are
exactly i, i + N, i + 2N, ... -/
theorem filter_range_mod_eq_map (N i : Nat) (hN : 0 < N) (hi : i < N) :
    ∀ L, (List.range L).filter (fun t => t % N = i)
      = (List.range (rrCount L N i)).map (fun t => i + N * t) := by
  intro L
  induction L with
  | zero =>
    rw [show rrCount 0 N i = (0 - i + N - 1) / N from rfl,
      Nat.div_eq_of_lt (by omega)]
    rfl
  | succ L ihL =>
    rw [List.range_succ, List.filter_append, ihL]
    by_cases hL : L % N = i
    · rw [show (List.filter (fun t => t % N = i) [L]) = [L] from by simp [hL]]
      have hiL : i ≤ L := by
        have := Nat.mod_le L N
        omega
      have hdvd : N ∣ L - i := by
        have hmeq : i ≡ L [MOD N] := by
          show i % N = L % N
          rw [Nat.mod_eq_of_lt hi, hL]
        exact (Nat.modEq_iff_dvd' hiL).mp hmeq
      obtain ⟨m, hm⟩ := hdvd
      have c1 : rrCount L N i = m := by
        rw [show rrCount L N i = (L - i + N - 1) / N from rfl]
        rw [show L - i + N - 1 = N * m + (N - 1) from by omega]
        rw [Nat.mul_add_div hN, Nat.div_eq_of_lt (by omega)]
        omega
      have c2 : rrCount (L + 1) N i = m + 1 := by
        rw [show rrCount (L + 1) N i = (L + 1 - i + N - 1) / N from rfl]
        have hexp : N * (m + 1) = N * m + N := by ring
        rw [show L + 1 - i + N - 1 = N * (m + 1) + 0 from by omega]
        rw [Nat.mul_add_div hN, Nat.zero_div]
      rw [c1, c2, List.range_succ, List.map_append]
      refine congrArg₂ (· ++ ·) rfl ?_
      rw [List.map_singleton]
      have : i + N * m = L := by omega
      rw [this]
    · rw [show (List.filter (fun t => t % N = i) [L]) = [] from by simp [hL]]
      have c2 : rrCount (L + 1) N i = rrCount L N i := by
        have hcnt := filter_range_mod_length N i hN hi
        rw [← hcnt (L + 1), ← hcnt L, List.range_succ, List.filter_append,
          List.length_append,
          show (List.filter (fun t => t % N = i) [L]) = [] from by simp [hL]]
        rfl
      rw [c2, List.append_nil]

/-- Reading any index of a list of empty chunks gives the empty chunk. -/
theorem getD_replicate_nil : ∀ (n i : Nat),
    (List.replicate n ([] : List α)).getD i [] = [] := by
  intro n
  induction n with
  | zero => intro i; rfl
  | succ n ih =>
    intro i
    match i with
    | 0 => rfl
    | i + 1 => exact ih i

/-- With at least as many ranks as chunks, chunk i of _chunk_Ks is the
round-robin sublist of residue i. -/
theorem chunk_Ks_getD (Ks : List α) (N i : Nat) (hN : 0 < N)
    (hNL : N ≤ Ks.length) (hi : i < N) :
    (chunk_Ks Ks N).getD i [] = rrFilter N i 0 Ks := by
  have hcond : ¬(Ks.length < N) := by omega
  simp only [chunk_Ks, hcond, if_false]
  rw [chunkLoop_getD N Ks i 0 (List.replicate N [])
    (by rw [List.length_replicate]; exact hi)]
  rw [getD_replicate_nil, List.nil_append]

/-- Chunk i read positionally: the elements of Ks at the positions of
residue i, in ascending position order. -/
theorem chunk_Ks_getD_posIdx (Ks : List α) (N i : Nat) (d : α) (hN : 0 < N)
    (hNL : N ≤ Ks.length) (hi : i < N) :
    (chunk_Ks Ks N).getD i []
      = ((List.range Ks.length).filter (fun t => t % N = i)).map
          (fun j => Ks.getD j d) := by
  rw [chunk_Ks_getD Ks N i hN hNL hi, rrFilter_eq_map N i d Ks 0]
  have hzero : (fun t => decide ((0 + t) % N = i)) = (fun t => decide (t % N = i)) := by
    funext t
    rw [Nat.zero_add]
  rw [hzero]

/-- Chunk i in arithmetic-progression form: the elements of Ks at
positions i, i + N, i + 2N, ... -/
theorem chunk_Ks_getD_arith (Ks : List α) (N i : Nat) (d : α) (hN : 0 < N)
    (hNL : N ≤ Ks.length) (hi : i < N) :
    (chunk_Ks Ks N).getD i []
      = (List.range (rrCount Ks.length N i)).map (fun t => Ks.getD (i + N * t) d) := by
  rw [chunk_Ks_getD_posIdx Ks N i d hN hNL hi, filter_range_mod_eq_map N i hN hi,
    List.map_map]
  rfl

/-- The residue classes below N tile the position range exactly once. -/
theorem flatMap_residue_perm_range (L N : Nat) (hN : 0 < N) :
    ((List.range N).flatMap (fun i => (List.range L).filter (fun t => t % N = i))).Perm
      (List.range L) := by
  have hnd : ((List.range N).flatMap
      (fun i => (List.range L).filter (fun t => t % N = i))).Nodup := by
    rw [List.nodup_flatMap]
    constructor
    · intro i _
      exact (List.nodup_range L).filter _
    · refine (List.pairwise_lt_range N).imp ?_
      intro i j hij
      intro a hai haj
      rw [List.mem_filter] at hai haj
      have h1 : a % N = i := by simpa using hai.2
      have h2 : a % N = j := by simpa using haj.2
      omega
  rw [List.perm_ext_iff_of_nodup hnd (List.nodup_range L)]
  intro a
  rw [List.mem_flatMap, List.mem_range]
  constructor
  · rintro ⟨i, _, hai⟩
    rw [List.mem_filter, List.mem_range] at hai
    exact hai.1
  · intro haL
    refine ⟨a % N, ?_, ?_⟩
    · rw [List.mem_range]
      exact Nat.mod_lt a hN
    · rw [List.mem_filter, List.mem_range]
      exact ⟨haL, by simp⟩

/-- C3: with 1 <= N <= len(Ks) nodes, _chunk_Ks produces exactly N
chunks; chunk i holds exactly the elements of Ks at positions i, i + N,
i + 2N, ... in that order (read here through optional indexing, which is
none on both sides beyond the chunk); every chunk has floor(L/N) or
ceil(L/N) elements; and the concatenation of the chunks is a permutation
of Ks, so each position contributes exactly once - no rank dropped or
duplicated. -/
theorem claim_C3_round_robin_chunking (Ks : List α) (N : Nat)
    (hN : 0 < N) (hNL : N ≤ Ks.length) :
    (chunk_Ks Ks N).length = N
    ∧ (∀ i, i < N → ∀ t : Nat,
        ((chunk_Ks Ks N).getD i [])[t]? = Ks[i + N * t]?)
    ∧ (∀ i, i < N →
        ((chunk_Ks Ks N).getD i []).length = Ks.length / N
        ∨ ((chunk_Ks Ks N).getD i []).length = (Ks.length + N - 1) / N)
    ∧ (chunk_Ks Ks N).flatten.Perm Ks := by
  have hcond : ¬(Ks.length < N) := by omega
  have hlen : (chunk_Ks Ks N).length = N := by
    simp only [chunk_Ks, hcond, if_false]
    rw [chunkLoop_length, List.length_replicate]
  obtain ⟨d, Ks2, hKs⟩ : ∃ x xs, Ks = x :: xs := by
    cases Ks with
    | nil =>
      have h0 : N ≤ 0 := hNL
      omega
    | cons x xs => exact ⟨x, xs, rfl⟩
  refine ⟨hlen, ?_, ?_, ?_⟩
  · intro i hi t
    rw [chunk_Ks_getD_arith Ks N i d hN hNL hi]
    rw [List.getElem?_map]
    by_cases hct : t < rrCount Ks.length N i
    · rw [List.getElem?_range hct]
      have hbound : i + N * t < Ks.length := by
        have h1 : t + 1 ≤ (Ks.length - i + N - 1) / N := hct
        have h2 : (t + 1) * N ≤ Ks.length - i + N - 1 :=
          (Nat.le_div_iff_mul_le hN).mp h1
        have h3 : (t + 1) * N = N * t + N := by ring
        omega
      rw [List.getElem?_eq_getElem hbound]
      rw [show Option.map (fun t => Ks.getD (i + N * t) d) (some t)
          = some (Ks.getD (i + N * t) d) from rfl]
      rw [List.getD_eq_getElem Ks d hbound]
    · have hnone : (List.range (rrCount Ks.length N i))[t]? = none := by
        apply List.getElem?_eq_none
        rw [List.length_range]
        omega
      rw [hnone]
      have hout : Ks.length ≤ i + N * t := by
        simp only [rrCount] at hct
        have hc : (Ks.length - i + N - 1) / N ≤ t := by omega
        have hdm := Nat.div_add_mod (Ks.length - i + N - 1) N
        have hml := Nat.mod_lt (Ks.length - i + N - 1) hN
        have hmul : N * ((Ks.length - i + N - 1) / N) ≤ N * t :=
          Nat.mul_le_mul_left N hc
        omega
      rw [List.getElem?_eq_none hout]
      rfl
  · intro i hi
    rw [chunk_Ks_getD_arith Ks N i d hN hNL hi, List.length_map,
      List.length_range]
    exact rrCount_floor_or_ceil Ks.length N i hN hi hNL
  · have hform : chunk_Ks Ks N
        = (List.range N).map (fun i =>
            ((List.range Ks.length).filter (fun t => t % N = i)).map
              (fun j => Ks.getD j d)) := by
      have h1 : chunk_Ks Ks N
          = (List.range (chunk_Ks Ks N).length).map
              (fun i => (chunk_Ks Ks N).getD i []) := (getD_range_map _ _).symm
      rw [h1, hlen]
      apply List.map_congr_left
      intro i hi
      rw [List.mem_range] at hi
      exact chunk_Ks_getD_posIdx Ks N i d hN hNL hi
    rw [hform, ← List.flatMap_def]
    have h2 : ((List.range N).flatMap (fun i =>
        ((List.range Ks.length).filter (fun t => t % N = i)).map
          (fun j => Ks.getD j d)))
        = ((List.range N).flatMap (fun i =>
            (List.range Ks.length).filter (fun t => t % N = i))).map
          (fun j => Ks.getD j d) := (List.map_flatMap _ _ _).symm
    rw [h2]
    have h3 := (flatMap_residue_perm_range Ks.length N hN).map (fun j => Ks.getD j d)
    rw [getD_range_map Ks d] at h3
    exact h3

/-- C3, witness: the theorem at a concrete five-element list split over
two nodes. -/
theorem claim_C3_witness :
    (chunk_Ks [10, 11, 12, 13, 14] 2).length = 2 :=
  (claim_C3_round_robin_chunking [10, 11, 12, 13, 14] 2 (by decide) (by decide)).1

/-- C9, witness: the zero err_reg array at a concrete two-rank run. -/
theorem claim_C9_witness :
    (fitLoop extCex InitMode.nnsvd false false 2 0 [10] [2, 3] 0 0).map
      (fun r => r.err_reg) = List.replicate 2 0 :=
  (claim_C9_zero_errors extCex InitMode.nnsvd false 2 0 [10] [2, 3] 0 0).2.1

end TELF
